import Mathlib

/-!
Verification of the plan-schedule GPX track library against its
natural-language specification.

The development shallowly embeds the two source files the claims refer to:

* `lib.py` — the `Point` / `Segment` / `Track` model, point-based splitting,
  elevation statistics and the haversine distance / nearest-point search;
* `pg.py` — the greedy nearest-neighbour segment sequencer `segmentsort`.

Numeric modelling: coordinates and elevations are embedded as rationals
(every Python float value is a rational; arithmetic is idealised as exact),
while the trigonometric distance computations are embedded over the reals.
Python exceptions (`ValueError` from `list.index`, `AssertionError`,
`KeyError`) are modelled with `Option` / explicit error flags.
-/

namespace PlanSchedule

/-- `lib.py` `Point`: latitude and longitude in degrees, optional elevation
and optional timestamp.  Python `==` on points is modelled by value
equality of the four fields. -/
structure Point where
  latitude : ℚ
  longitude : ℚ
  elevation : Option ℚ := none
  timestamp : Option String := none
deriving DecidableEq, Repr

/-- `lib.py` `Segment`: an ordered list of points. -/
structure Segment where
  points : List Point
deriving DecidableEq, Repr

/-- `lib.py` `Track`: an ordered list of segments. -/
structure Track where
  segments : List Segment
deriving DecidableEq, Repr

/-- Python `list.insert(i, x)` (for `i ≤ len`). -/
def pyInsert (l : List α) (i : Nat) (x : α) : List α :=
  l.take i ++ x :: l.drop i

/-- The list left over after Python `list.pop(i)`. -/
def pyPop (l : List α) (i : Nat) : List α :=
  l.take i ++ l.drop (i + 1)

/-- The pair of segments built by `Segment.split_segment_at_point` once the
index lookup has succeeded: `points[: index + 1]` and `points[index :]`
where `index = points.index(point)` (first value-equal occurrence). -/
def splitPair (s : Segment) (p : Point) : Segment × Segment :=
  let index := s.points.indexOf p
  (⟨s.points.take (index + 1)⟩, ⟨s.points.drop index⟩)

/-- `lib.py` `Segment.split_segment_at_point`.  `none` models the
`ValueError` raised by `self.points.index(point)` when the point is not a
member of the list. -/
def split_segment_at_point (s : Segment) (p : Point) : Option (Segment × Segment) :=
  if p ∈ s.points then some (splitPair s p) else none

/-- `lib.py` `Track.split_track_at_point`, with the mutated segment list
returned as a value.  The source scans for the first segment containing the
point and then performs, at that index `n`:
`segments.insert(n, segment_a)`, `segments.insert(n, segment_b)`,
`segments.pop(n)`.  Since the list prefix before `n` is untouched, the
scan is modelled by structural recursion with the three mutations applied
at relative index `0`.  If no segment contains the point the loop falls
through and the list is returned unchanged (the source returns `None`
without raising). -/
def split_track_at_point : List Segment → Point → List Segment
  | [], _ => []
  | s :: rest, p =>
    if p ∈ s.points then
      let ab := splitPair s p
      pyPop (pyInsert (pyInsert (s :: rest) 0 ab.1) 0 ab.2) 0
    else s :: split_track_at_point rest p

/-- `lib.py` free function `elevation(point)`: returns the elevation,
`none` modelling the `AssertionError` raised when it is absent. -/
def elevation (p : Point) : Option ℚ :=
  p.elevation

/-- `lib.py` `Segment.min_elevation`: minimum over the points that do have
an elevation (points lacking one are filtered out by the generator).
`none` models the `ValueError` Python's `min` raises on an empty
generator. -/
def min_elevation (s : Segment) : Option ℚ :=
  match s.points.filterMap Point.elevation with
  | [] => none
  | e :: es => some (es.foldl min e)

/-- `lib.py` `Segment.max_elevation`, analogous to `min_elevation`. -/
def max_elevation (s : Segment) : Option ℚ :=
  match s.points.filterMap Point.elevation with
  | [] => none
  | e :: es => some (es.foldl max e)

/-- The consecutive point pairs `zip(self.points, self.points[1:])`. -/
def pairs (s : Segment) : List (Point × Point) :=
  s.points.zip s.points.tail

/-- One summand of `elevation_gain`: `max(0, elevation(point_b) -
elevation(point_a))`, failing when either elevation is absent (the source
evaluates `elevation(point_b)` first). -/
def gainStep (acc : ℚ) (pr : Point × Point) : Option ℚ := do
  let eb ← elevation pr.2
  let ea ← elevation pr.1
  pure (acc + max 0 (eb - ea))

/-- One summand of `elevation_loss`: `max(0, -elevation(point_b) +
elevation(point_a))`. -/
def lossStep (acc : ℚ) (pr : Point × Point) : Option ℚ := do
  let eb ← elevation pr.2
  let ea ← elevation pr.1
  pure (acc + max 0 (-eb + ea))

/-- One delta of `elevation_changes`: `elevation(point_b) -
elevation(point_a)`. -/
def deltaStep (pr : Point × Point) : Option ℚ := do
  let eb ← elevation pr.2
  let ea ← elevation pr.1
  pure (eb - ea)

/-- `lib.py` `Segment.elevation_gain`: sum of `max(0, e_b - e_a)` over
consecutive pairs; `none` if any touched point lacks an elevation. -/
def elevation_gain (s : Segment) : Option ℚ :=
  (pairs s).foldlM gainStep 0

/-- `lib.py` `Segment.elevation_loss`: sum of `max(0, -e_b + e_a)` over
consecutive pairs; `none` if any touched point lacks an elevation. -/
def elevation_loss (s : Segment) : Option ℚ :=
  (pairs s).foldlM lossStep 0

/-- Pure version of the `elevation_gain` sum over an already-extracted
elevation list (used to relate the fallible fold to arithmetic). -/
def gainOf (es : List ℚ) : ℚ :=
  (es.zip es.tail).foldl (fun a pr => a + max 0 (pr.2 - pr.1)) 0

/-- Pure version of the `elevation_loss` sum over an elevation list. -/
def lossOf (es : List ℚ) : ℚ :=
  (es.zip es.tail).foldl (fun a pr => a + max 0 (-pr.2 + pr.1)) 0

/-- `lib.py` `Segment._simplify_elevation_changes`: merge consecutive
deltas whose product is nonnegative.  The imperative list that is grown at
its tail is represented head-reversed (append = cons, mutate last = mutate
head) and reversed at the end. -/
def simplify_elevation_changes (cs : List ℚ) : List ℚ :=
  match cs with
  | [] => []
  | c :: rest =>
    (rest.foldl (fun acc change =>
      match acc with
      | [] => [change]
      | lastc :: front =>
        if 0 ≤ change * lastc then (lastc + change) :: front
        else change :: lastc :: front) [c]).reverse

/-- `lib.py` `Segment._defuzz_elevation_changes`: accumulator starts at
`[0.0]`; a delta of magnitude strictly below `fuzz` is always folded into
the running accumulator, a same-sign delta is folded in, an opposite-sign
delta `≥ fuzz` starts a new accumulator; a leading exact `0` in the result
is dropped. -/
def defuzz_elevation_changes (cs : List ℚ) (fuzz : ℚ) : List ℚ :=
  let r := (cs.foldl (fun acc change =>
      match acc with
      | [] => [change]
      | lastc :: front =>
        if |change| < fuzz then (lastc + change) :: front
        else if 0 ≤ change * lastc then (lastc + change) :: front
        else change :: lastc :: front) [0]).reverse
  match r with
  | [] => []
  | c :: rest => if c = 0 then rest else c :: rest

/-- `lib.py` `Segment.elevation_changes`: consecutive deltas (failing like
the source if a touched point lacks elevation), then run simplification,
then defuzzing. -/
def elevation_changes (s : Segment) (fuzz : ℚ) : Option (List ℚ) :=
  ((pairs s).mapM deltaStep).map
    (fun ds => defuzz_elevation_changes (simplify_elevation_changes ds) fuzz)

/-! ### Geometry (`lib.py`), embedded over the reals -/

/-- `lib.py` module constant `earth_radius_m = 6371000`. -/
noncomputable def earth_radius_m : ℝ := 6371000

/-- Python `math.radians`. -/
noncomputable def radians (x : ℝ) : ℝ := x * Real.pi / 180

/-- Python `math.atan2(y, x)` (two-argument arctangent). -/
noncomputable def atan2 (y x : ℝ) : ℝ :=
  if 0 < x then Real.arctan (y / x)
  else if x < 0 ∧ 0 ≤ y then Real.arctan (y / x) + Real.pi
  else if x < 0 ∧ y < 0 then Real.arctan (y / x) - Real.pi
  else if x = 0 ∧ 0 < y then Real.pi / 2
  else if x = 0 ∧ y < 0 then -(Real.pi / 2)
  else 0

/-- `lib.py` `Point.haversine_distance`: haversine great-circle distance
with `R = 6 371 000` m; the rational coordinates are interpreted as exact
real numbers. -/
noncomputable def haversine_distance (p other : Point) : ℝ :=
  let lat1 := radians (p.latitude : ℝ)
  let lon1 := radians (p.longitude : ℝ)
  let lat2 := radians (other.latitude : ℝ)
  let lon2 := radians (other.longitude : ℝ)
  let dlat := lat2 - lat1
  let dlon := lon2 - lon1
  let a := Real.sin (dlat / 2) ^ 2 +
    Real.cos lat1 * Real.cos lat2 * Real.sin (dlon / 2) ^ 2
  let c := 2 * atan2 (Real.sqrt a) (Real.sqrt (1 - a))
  earth_radius_m * c

/-- All track points of a list of tracks in the iteration order of
`Point.find_nearest_track_point` (tracks, then segments, then points). -/
def allTrackPoints (tracks : List Track) : List Point :=
  (tracks.flatMap Track.segments).flatMap Segment.points

/-- One step of the minimum search in `find_nearest_track_point`.  The
accumulator `none` models `min_distance = inf, nearest_point = None`; every
real distance satisfies `distance < inf`, so the first point always
replaces it. -/
noncomputable def nearestStep (self : Point) (acc : Option (ℝ × Point)) (tp : Point) :
    Option (ℝ × Point) :=
  match acc with
  | none => some (haversine_distance self tp, tp)
  | some (m, np) =>
    if haversine_distance self tp < m then some (haversine_distance self tp, tp)
    else some (m, np)

/-- `lib.py` `Point.find_nearest_track_point`: linear scan keeping the
strictly smallest distance seen so far.  `none` models the failing
`assert nearest_point is not None`. -/
noncomputable def find_nearest_track_point (self : Point) (tracks : List Track) :
    Option Point :=
  ((allTrackPoints tracks).foldl (nearestStep self) none).map Prod.snd

/-! ### `pg.py`: segments and the greedy sequencer `segmentsort` -/

/-- `pg.py` `Segment`: coordinates are `(lat, lon)` pairs; `start` and
`end` are the first and last point (the source indexes `points[0]` and
`points[-1]`, so segments are assumed non-empty; `headD`/`getLastD` carry
an irrelevant default). -/
structure PGSegment where
  points : List (ℚ × ℚ)
deriving DecidableEq, Inhabited, Repr

/-- `pg.py` `self.start = self.points[0]`. -/
def pgStart (s : PGSegment) : ℚ × ℚ := s.points.headD (0, 0)

/-- `pg.py` `self.end = self.points[-1]`. -/
def pgStop (s : PGSegment) : ℚ × ℚ := s.points.getLastD (0, 0)

/-- `pg.py` `haversine(coord1, coord2)` with `R = 6372800 / 1000`
kilometres (note: a different radius constant than `lib.py`). -/
noncomputable def pg_haversine (c1 c2 : ℚ × ℚ) : ℝ :=
  let R : ℝ := 6372800 / 1000
  let phi1 := radians (c1.1 : ℝ)
  let phi2 := radians (c2.1 : ℝ)
  let dphi := radians ((c2.1 : ℝ) - (c1.1 : ℝ))
  let dlambda := radians ((c2.2 : ℝ) - (c1.2 : ℝ))
  let a := Real.sin (dphi / 2) ^ 2 +
    Real.cos phi1 * Real.cos phi2 * Real.sin (dlambda / 2) ^ 2
  2 * R * atan2 (Real.sqrt a) (Real.sqrt (1 - a))

/-- Python `min(range(k), key=f)` keeping the first minimiser (`min`
replaces the current best only on strict decrease). -/
noncomputable def argminIdx (f : Nat → ℝ) (k : Nat) : Nat :=
  (List.range k).foldl (fun best m => if f m < f best then m else best) 0

/-- Python `max(range(k), key=f)` keeping the first maximiser. -/
noncomputable def argmaxIdx (f : Nat → ℝ) (k : Nat) : Nat :=
  (List.range k).foldl (fun best m => if f best < f m then m else best) 0

/-- Python `min` of a non-empty list of floats (`0` for the impossible
empty case). -/
noncomputable def pyMinList (l : List ℝ) : ℝ :=
  match l with
  | [] => 0
  | x :: xs => xs.foldl min x

/-- `pg.py` `closest[n]`: the index of the segment minimising
`haversine(segment.end, other.start)`, iterating `segments.values()` in
key order `0, 1, …` (ties keep the earliest). -/
noncomputable def segClosest (segs : List PGSegment) (n : Nat) : Nat :=
  argminIdx
    (fun m => pg_haversine (pgStop (segs.getD n default)) (pgStart (segs.getD m default)))
    segs.length

/-- `pg.py` `closest` as an insertion-ordered association list
`{n : closest successor index}`. -/
noncomputable def closestMap (segs : List PGSegment) : List (Nat × Nat) :=
  (List.range segs.length).map fun n => (n, segClosest segs n)

/-- `pg.py` `incoming_distance[n] = min(haversine(segment.start, other.end)
for other in segments.values())`. -/
noncomputable def incomingDistance (segs : List PGSegment) (n : Nat) : ℝ :=
  pyMinList ((List.range segs.length).map fun m =>
    pg_haversine (pgStart (segs.getD n default)) (pgStop (segs.getD m default)))

/-- `pg.py` `first_n = max(incoming_distance, key=incoming_distance.__getitem__)`. -/
noncomputable def firstIdx (segs : List PGSegment) : Nat :=
  argmaxIdx (incomingDistance segs) segs.length

/-- Python `dict.pop(key)` on an association list with distinct keys:
the value and the remaining entries, or `none` (a `KeyError`) when the key
is absent. -/
def popKey : List (Nat × Nat) → Nat → Option (Nat × List (Nat × Nat))
  | [], _ => none
  | (k, v) :: rest, key =>
    if k = key then some (v, rest)
    else
      match popKey rest key with
      | none => none
      | some (v2, rest2) => some (v2, (k, v) :: rest2)

/-- The `while closest:` loop of `segmentsort`, with gas equal to the exact
size of `closest` (each successful `pop` removes exactly one entry, so the
gas-exhausted branch is unreachable and conservatively reports the same
error flag as a `KeyError`).  Returns the list of yielded segment indices
— the list of yields accumulated so far doubles as the `seen` set — and a
flag that is `true` iff the generator dies with a `KeyError` from
`closest.pop(segment.n)`.  After a normal loop exit the source yields the
final segment only if it was never yielded. -/
def segLoopGo : Nat → List (Nat × Nat) → Nat → List Nat → List Nat × Bool
  | _, [], cur, acc => (if cur ∈ acc then acc else acc ++ [cur], false)
  | 0, _ :: _, _, acc => (acc, true)
  | gas + 1, c :: cs, cur, acc =>
    match popKey (c :: cs) cur with
    | none => (acc ++ [cur], true)
    | some (next, closest2) => segLoopGo gas closest2 next (acc ++ [cur])

/-- The `segmentsort` loop starting from a `closest` map and a current
segment index. -/
def segLoop (closest : List (Nat × Nat)) (cur : Nat) (acc : List Nat) :
    List Nat × Bool :=
  segLoopGo closest.length closest cur acc

/-- `pg.py` `segmentsort(segments)` observed as the stream of yielded
segment indices (the generator yields `segments[i]` for each emitted `i`)
plus a flag recording whether it raised a `KeyError`. -/
noncomputable def segmentsortRun (segs : List PGSegment) : List Nat × Bool :=
  segLoop (closestMap segs) (firstIdx segs) []

/-! ### A tiny heap model for the frame claim about `split_segment_at_point` -/

/-- A store mapping addresses to Python list contents, with a bump
allocator. -/
structure Heap where
  mem : Nat → List Point
  next : Nat

/-- Allocate a fresh list object. -/
def halloc (h : Heap) (v : List Point) : Nat × Heap :=
  (h.next, ⟨fun a => if a = h.next then v else h.mem a, h.next + 1⟩)

/-- A segment as a reference to its (mutable) point list. -/
structure SegRef where
  ptsRef : Nat
deriving DecidableEq, Repr

/-- `Segment.split_segment_at_point` at the heap level: read
`self.points`, look the point up (a failure mutates nothing), build the
two slices as freshly allocated lists, and return the new segments.  The
source never assigns to `self.points`, so the store is only extended. -/
def split_segment_at_point_heap (h : Heap) (s : SegRef) (p : Point) :
    Option (Heap × SegRef × SegRef) :=
  let pts := h.mem s.ptsRef
  if p ∈ pts then
    let index := pts.indexOf p
    let a := halloc h (pts.take (index + 1))
    let b := halloc a.2 (pts.drop index)
    some (b.2, ⟨a.1⟩, ⟨b.1⟩)
  else none

/-! ### Concrete sample data used by the closed theorems -/

/-- A point with given latitude and longitude and no elevation. -/
def mkPt (lat lon : ℚ) : Point := ⟨lat, lon, none, none⟩

/-- A point at the origin carrying an elevation. -/
def elevPt (e : ℚ) : Point := ⟨0, 0, some e, none⟩

/-- Sample heap for the frame-claim witness: one allocated list at
address `0`. -/
def sampleHeap : Heap := ⟨fun _ => [mkPt 1 0, mkPt 2 0, mkPt 3 0], 1⟩

/-- `pg.py` counterexample segment 0: from `(0, 2)` to `(0, 1)` on the
equator. -/
def cexSegA : PGSegment := ⟨[(0, 2), (0, 1)]⟩

/-- `pg.py` counterexample segment 1: from `(0, 1)` to `(0, 2)`. -/
def cexSegB : PGSegment := ⟨[(0, 1), (0, 2)]⟩

/-- `pg.py` counterexample segment 2: the single point `(0, 1)` (its
start and end coincide). -/
def cexSegC : PGSegment := ⟨[(0, 1)]⟩

/-- The counterexample input for the sequencer claim. -/
def cexSegs : List PGSegment := [cexSegA, cexSegB, cexSegC]

/-! ## Helper lemmas -/

theorem take_succ_getLast? (l : List α) (i : Nat) (h : i < l.length) :
    (l.take (i + 1)).getLast? = l[i]? := by
  rw [List.getLast?_eq_getElem?, List.length_take]
  have hmin : (i + 1) ⊓ l.length = i + 1 := by omega
  rw [hmin, Nat.add_sub_cancel, List.getElem?_take, if_pos (Nat.lt_succ_self i)]

theorem indexOf_getElem?_self (l : List Point) (p : Point) (h : p ∈ l) :
    l[l.indexOf p]? = some p := by
  rw [← List.get?_eq_getElem?]
  exact List.indexOf_get? h

theorem splitPair_spec (s : Segment) (p : Point) (h : p ∈ s.points) :
    (splitPair s p).1.points.getLast? = some p ∧
      (splitPair s p).2.points.head? = some p ∧
      (splitPair s p).1.points ++ (splitPair s p).2.points.tail = s.points := by
  have hi : s.points.indexOf p < s.points.length := List.indexOf_lt_length.2 h
  have hget : s.points[s.points.indexOf p]? = some p := indexOf_getElem?_self _ _ h
  refine ⟨?_, ?_, ?_⟩
  · rw [splitPair]
    rw [take_succ_getLast? _ _ hi, hget]
  · rw [splitPair]
    rw [List.head?_drop, hget]
  · rw [splitPair]
    rw [List.tail_drop, List.take_append_drop]

/-! ## Claim theorems -/

/-- Claim C6: for every point `p` that is a member of `segment.points`,
`split_segment_at_point` succeeds and yields two segments `A` and `B` such
that `p` is the last point of `A` and the first point of `B`, and `A.points`
concatenated with `B.points` minus its first point reconstructs the
original point sequence exactly. -/
theorem C6_split_segment_reconstruct (s : Segment) (p : Point) (h : p ∈ s.points) :
    ∃ A B, split_segment_at_point s p = some (A, B) ∧
      A.points.getLast? = some p ∧ B.points.head? = some p ∧
      A.points ++ B.points.tail = s.points := by
  refine ⟨(splitPair s p).1, (splitPair s p).2, ?_, splitPair_spec s p h⟩
  rw [split_segment_at_point, if_pos h]

/-- Witness for C6 at a concrete three-point segment split at its middle
point. -/
theorem C6_split_segment_reconstruct_witness :
    ∃ A B,
      split_segment_at_point ⟨[mkPt 1 0, mkPt 2 0, mkPt 3 0]⟩ (mkPt 2 0) = some (A, B) ∧
      A.points.getLast? = some (mkPt 2 0) ∧ B.points.head? = some (mkPt 2 0) ∧
      A.points ++ B.points.tail = [mkPt 1 0, mkPt 2 0, mkPt 3 0] :=
  C6_split_segment_reconstruct ⟨[mkPt 1 0, mkPt 2 0, mkPt 3 0]⟩ (mkPt 2 0) (by decide)

/-- Claim C1, evaluated at a failing input (status: code bug).  For the
track with the single segment `[(1,0), (2,0), (3,0)]`, splitting at
`(2,0)` is claimed to replace the segment by its two halves
`[(1,0), (2,0)]` and `[(2,0), (3,0)]`.  The `insert/insert/pop` sequence
in the source instead pops the freshly inserted second half, leaving the
first half followed by the original, unsplit segment. -/
theorem C1_track_split_eval :
    split_track_at_point [⟨[mkPt 1 0, mkPt 2 0, mkPt 3 0]⟩] (mkPt 2 0) =
      [⟨[mkPt 1 0, mkPt 2 0]⟩, ⟨[mkPt 1 0, mkPt 2 0, mkPt 3 0]⟩] ∧
      split_track_at_point [⟨[mkPt 1 0, mkPt 2 0, mkPt 3 0]⟩] (mkPt 2 0) ≠
      [⟨[mkPt 1 0, mkPt 2 0]⟩, ⟨[mkPt 2 0, mkPt 3 0]⟩] := by
  constructor
  · decide
  · decide

/-- Claim C4: on the elevation samples `[100, 150, 90, 200]` with
`fuzz = 50`, `elevation_changes` returns exactly `[50, -60, 110]`; the raw
deltas survive run simplification unchanged and the `+50` delta is not
folded away since the fuzz test is strict less-than. -/
theorem C4_elevation_changes_eval :
    elevation_changes ⟨[elevPt 100, elevPt 150, elevPt 90, elevPt 200]⟩ 50 =
      some [50, -60, 110] ∧
      simplify_elevation_changes [50, -60, 110] = [50, -60, 110] ∧
      defuzz_elevation_changes [50, -60, 110] 50 = [50, -60, 110] := by
  refine ⟨?_, ?_, ?_⟩ <;>
    norm_num [elevation_changes, pairs, deltaStep, elevation, elevPt,
      List.zip_cons_cons, List.mapM_cons, List.mapM_nil, List.mapM.loop,
      simplify_elevation_changes, defuzz_elevation_changes,
      List.foldl_cons, List.foldl_nil]

/-- Counterexample to claim C3: the segment `[(0,0) at elevation 5,
(0,0) with no elevation]` contains a point whose elevation is absent, yet
`min_elevation` returns the value `5` instead of failing — the source
filters points lacking an elevation out of the `min` generator. -/
theorem C3_counterexample :
    min_elevation ⟨[elevPt 5, mkPt 0 0]⟩ = some 5 ∧
      max_elevation ⟨[elevPt 5, mkPt 0 0]⟩ = some 5 := by
  constructor <;> decide

/-- Counterexample to claim C8: track-level `split_track_at_point` with a
point absent from every segment returns normally (the membership scan
falls through without raising), leaving the track unchanged — it does not
fail with `PointNotFound` as claimed. -/
theorem C8_counterexample :
    split_track_at_point [⟨[mkPt 1 0]⟩] (mkPt 9 9) = [⟨[mkPt 1 0]⟩] := by
  decide

theorem track_split_absent (p : Point) :
    ∀ segs : List Segment, (∀ t ∈ segs, p ∉ t.points) →
      split_track_at_point segs p = segs := by
  intro segs
  induction segs with
  | nil => intro _; rfl
  | cons a rest ih =>
    intro h
    rw [split_track_at_point, if_neg (h a (List.mem_cons_self a rest))]
    rw [ih (fun t ht => h t (List.mem_cons_of_mem a ht))]

/-- Claim C8, amended: with a point absent from the target's point lists,
the segment-level split fails (the `ValueError` raised by `list.index`,
which plays the `PointNotFound` role) before any state change, while the
track-level split does NOT fail: its membership scan falls through and it
returns normally, leaving the segment list unchanged. -/
theorem C8_amended_absent_point (p : Point) (s : Segment) (segs : List Segment)
    (hs : p ∉ s.points) (hsegs : ∀ t ∈ segs, p ∉ t.points) :
    split_segment_at_point s p = none ∧ split_track_at_point segs p = segs :=
  ⟨by rw [split_segment_at_point, if_neg hs], track_split_absent p segs hsegs⟩

/-- Witness for the amended C8 at a concrete one-segment track and an
absent point. -/
theorem C8_amended_absent_point_witness :
    split_segment_at_point ⟨[mkPt 1 0]⟩ (mkPt 9 9) = none ∧
      split_track_at_point [⟨[mkPt 1 0]⟩] (mkPt 9 9) = [⟨[mkPt 1 0]⟩] :=
  C8_amended_absent_point (mkPt 9 9) ⟨[mkPt 1 0]⟩ [⟨[mkPt 1 0]⟩]
    (by decide) (by decide)

theorem exists_adj_pair {α : Type} : ∀ (l : List α) (p : α), p ∈ l → 2 ≤ l.length →
    ∃ pr ∈ l.zip l.tail, pr.1 = p ∨ pr.2 = p
  | [], p, hp, _ => absurd hp (List.not_mem_nil p)
  | [_], _, _, h2 => absurd h2 (by simp)
  | a :: b :: t, p, hp, _ => by
    rcases List.mem_cons.1 hp with rfl | hpt
    · exact ⟨(p, b), List.mem_cons_self _ _, Or.inl rfl⟩
    · rcases t with _ | ⟨c, t2⟩
      · have hb : p = b := by simpa using hpt
        exact ⟨(a, b), List.mem_cons_self _ _, Or.inr hb.symm⟩
      · obtain ⟨pr, hmem, hor⟩ := exists_adj_pair (b :: c :: t2) p hpt (by simp)
        exact ⟨pr, List.mem_cons_of_mem _ hmem, hor⟩

theorem gainStep_none (acc : ℚ) (pr : Point × Point)
    (h : pr.1.elevation = none ∨ pr.2.elevation = none) : gainStep acc pr = none := by
  obtain ⟨pa, pb⟩ := pr
  rcases h with h | h
  · replace h : pa.elevation = none := h
    cases hb : pb.elevation <;> simp [gainStep, elevation, h, hb]
  · replace h : pb.elevation = none := h
    simp [gainStep, elevation, h]

theorem lossStep_none (acc : ℚ) (pr : Point × Point)
    (h : pr.1.elevation = none ∨ pr.2.elevation = none) : lossStep acc pr = none := by
  obtain ⟨pa, pb⟩ := pr
  rcases h with h | h
  · replace h : pa.elevation = none := h
    cases hb : pb.elevation <;> simp [lossStep, elevation, h, hb]
  · replace h : pb.elevation = none := h
    simp [lossStep, elevation, h]

theorem deltaStep_none (pr : Point × Point)
    (h : pr.1.elevation = none ∨ pr.2.elevation = none) : deltaStep pr = none := by
  obtain ⟨pa, pb⟩ := pr
  rcases h with h | h
  · replace h : pa.elevation = none := h
    cases hb : pb.elevation <;> simp [deltaStep, elevation, h, hb]
  · replace h : pb.elevation = none := h
    simp [deltaStep, elevation, h]

theorem foldlM_step_none (step : ℚ → Point × Point → Option ℚ)
    (hstep : ∀ acc pr, pr.1.elevation = none ∨ pr.2.elevation = none →
      step acc pr = none) :
    ∀ (l : List (Point × Point)) (acc : ℚ),
      (∃ pr ∈ l, pr.1.elevation = none ∨ pr.2.elevation = none) →
      l.foldlM step acc = none := by
  intro l
  induction l with
  | nil =>
    rintro acc ⟨pr, hmem, -⟩
    exact absurd hmem (List.not_mem_nil pr)
  | cons x xs ih =>
    rintro acc ⟨pr, hmem, hbad⟩
    rw [List.foldlM_cons]
    rcases List.mem_cons.1 hmem with rfl | hmem2
    · rw [hstep acc pr hbad]
      rfl
    · cases hx : step acc x with
      | none => rfl
      | some acc2 =>
        show xs.foldlM step acc2 = none
        exact ih acc2 ⟨pr, hmem2, hbad⟩

theorem mapM_deltaStep_none :
    ∀ l : List (Point × Point),
      (∃ pr ∈ l, pr.1.elevation = none ∨ pr.2.elevation = none) →
      l.mapM deltaStep = none := by
  intro l
  induction l with
  | nil =>
    rintro ⟨pr, hmem, -⟩
    exact absurd hmem (List.not_mem_nil pr)
  | cons x xs ih =>
    rintro ⟨pr, hmem, hbad⟩
    rw [List.mapM_cons]
    rcases List.mem_cons.1 hmem with rfl | hmem2
    · rw [deltaStep_none pr hbad]
      rfl
    · cases hx : deltaStep x with
      | none => rfl
      | some y =>
        show (xs.mapM deltaStep >>= fun ys => pure (y :: ys)) = none
        rw [ih ⟨pr, hmem2, hbad⟩]
        rfl

/-- Claim C3, amended: on a segment with at least two points at least one
of which lacks an elevation, the pairwise queries `elevation_gain`,
`elevation_loss` and `elevation_changes` all fail (the
`MissingElevation` assertion), but `min_elevation` and `max_elevation` do
not: they skip points lacking an elevation and still return a value
whenever some point has one. -/
theorem C3_amended_missing_elevation (s : Segment) (fuzz : ℚ)
    (h2 : 2 ≤ s.points.length) (hmiss : ∃ p ∈ s.points, p.elevation = none) :
    elevation_gain s = none ∧ elevation_loss s = none ∧
      elevation_changes s fuzz = none ∧
      ((∃ q ∈ s.points, q.elevation ≠ none) →
        (∃ v, min_elevation s = some v) ∧ ∃ v, max_elevation s = some v) := by
  obtain ⟨p, hp, hpe⟩ := hmiss
  obtain ⟨pr, hmem, hor⟩ := exists_adj_pair s.points p hp h2
  have hbad : pr.1.elevation = none ∨ pr.2.elevation = none := by
    rcases hor with h | h
    · exact Or.inl (h ▸ hpe)
    · exact Or.inr (h ▸ hpe)
  have hpairs : ∃ pr ∈ pairs s, pr.1.elevation = none ∨ pr.2.elevation = none :=
    ⟨pr, hmem, hbad⟩
  refine ⟨?_, ?_, ?_, ?_⟩
  · exact foldlM_step_none gainStep gainStep_none (pairs s) 0 hpairs
  · exact foldlM_step_none lossStep lossStep_none (pairs s) 0 hpairs
  · rw [elevation_changes, mapM_deltaStep_none (pairs s) hpairs]
    rfl
  · rintro ⟨q, hq, hqe⟩
    obtain ⟨e, he⟩ := Option.ne_none_iff_exists'.1 hqe
    have hin : e ∈ s.points.filterMap Point.elevation :=
      List.mem_filterMap.2 ⟨q, hq, he⟩
    rcases hfm : s.points.filterMap Point.elevation with _ | ⟨x, xs⟩
    · rw [hfm] at hin
      exact absurd hin (List.not_mem_nil e)
    · exact ⟨⟨xs.foldl min x, by rw [min_elevation, hfm]⟩,
        ⟨xs.foldl max x, by rw [max_elevation, hfm]⟩⟩

/-- Witness for the amended C3 at the concrete segment `[elevation 5,
no elevation]`. -/
theorem C3_amended_missing_elevation_witness :
    elevation_gain ⟨[elevPt 5, mkPt 0 0]⟩ = none ∧
      elevation_loss ⟨[elevPt 5, mkPt 0 0]⟩ = none ∧
      elevation_changes ⟨[elevPt 5, mkPt 0 0]⟩ 50 = none ∧
      ((∃ q ∈ (⟨[elevPt 5, mkPt 0 0]⟩ : Segment).points, q.elevation ≠ none) →
        (∃ v, min_elevation ⟨[elevPt 5, mkPt 0 0]⟩ = some v) ∧
          ∃ v, max_elevation ⟨[elevPt 5, mkPt 0 0]⟩ = some v) :=
  C3_amended_missing_elevation ⟨[elevPt 5, mkPt 0 0]⟩ 50 (by decide)
    ⟨mkPt 0 0, by decide, by decide⟩

theorem mapM_cons_some {α β : Type} {f : α → Option β} {p : α} {l : List α}
    {es : List β} (h : (p :: l).mapM f = some es) :
    ∃ e es2, f p = some e ∧ l.mapM f = some es2 ∧ es = e :: es2 := by
  rw [List.mapM_cons] at h
  cases hfp : f p with
  | none => rw [hfp] at h; simp at h
  | some e =>
    rw [hfp] at h
    cases hml : l.mapM f with
    | none => rw [hml] at h; simp at h
    | some es2 =>
      rw [hml] at h
      have hes : e :: es2 = es := Option.some.inj h
      exact ⟨e, es2, rfl, rfl, hes.symm⟩

theorem foldlM_pairs_eq (step : ℚ → Point × Point → Option ℚ)
    (pstep : ℚ → ℚ → ℚ → ℚ)
    (hc : ∀ acc (pa pb : Point) ea eb, pa.elevation = some ea →
      pb.elevation = some eb → step acc (pa, pb) = some (pstep acc ea eb)) :
    ∀ (pts : List Point) (es : List ℚ), pts.mapM Point.elevation = some es →
      ∀ acc : ℚ, (pts.zip pts.tail).foldlM step acc =
        some ((es.zip es.tail).foldl (fun a pr => pstep a pr.1 pr.2) acc) := by
  intro pts
  induction pts with
  | nil =>
    intro es h acc
    rw [List.mapM_nil] at h
    have hes : es = [] := (Option.some.inj h).symm
    subst hes
    rfl
  | cons pa rest ih =>
    intro es h acc
    obtain ⟨ea, es2, hpa, hrest, rfl⟩ := mapM_cons_some h
    rcases rest with _ | ⟨pb, rest2⟩
    · rw [List.mapM_nil] at hrest
      have hes2 : es2 = [] := (Option.some.inj hrest).symm
      subst hes2
      rfl
    · obtain ⟨eb, es3, hpb, _, rfl⟩ := mapM_cons_some hrest
      rw [List.tail_cons, List.zip_cons_cons, List.foldlM_cons,
        hc acc pa pb ea eb hpa hpb]
      show ((pb :: rest2).zip (pb :: rest2).tail).foldlM step (pstep acc ea eb) = _
      rw [ih (eb :: es3) hrest (pstep acc ea eb)]
      rfl

theorem gain_loss_fold_sub : ∀ (es : List ℚ) (a b : ℚ),
    (es.zip es.tail).foldl (fun x pr => x + max 0 (pr.2 - pr.1)) a
      - (es.zip es.tail).foldl (fun x pr => x + max 0 (-pr.2 + pr.1)) b
      = a - b + (es.getLastD 0 - es.headD 0)
  | [], a, b => by simp
  | [e], a, b => by simp
  | e :: f :: t, a, b => by
    have ih := gain_loss_fold_sub (f :: t) (a + max 0 (f - e)) (b + max 0 (-f + e))
    rw [List.tail_cons] at ih ⊢
    rw [List.zip_cons_cons, List.foldl_cons, List.foldl_cons, ih]
    have hmax : max 0 (f - e) - max 0 (-f + e) = f - e := by
      rcases le_total e f with h | h
      · rw [max_eq_right (by linarith), max_eq_left (by linarith)]
        ring
      · rw [max_eq_left (by linarith), max_eq_right (by linarith)]
        ring
    have hlast : (e :: f :: t).getLastD 0 = (f :: t).getLastD 0 := by
      rw [List.getLastD_cons, List.getLastD_cons, List.getLastD_cons]
    rw [hlast]
    simp only [List.headD_cons]
    linarith [hmax]

/-- Claim C5: for every segment with at least two points in which every
point has a defined elevation, `elevation_gain - elevation_loss` equals
the elevation of the last point minus the elevation of the first point
(telescoping-sum identity, exact over exact arithmetic). -/
theorem C5_gain_loss_telescope (s : Segment) (es : List ℚ)
    (h : s.points.mapM Point.elevation = some es) (h2 : 2 ≤ s.points.length) :
    ∃ g l, elevation_gain s = some g ∧ elevation_loss s = some l ∧
      g - l = es.getLastD 0 - es.headD 0 := by
  have hgain : elevation_gain s = some (gainOf es) := by
    rw [elevation_gain]
    show (s.points.zip s.points.tail).foldlM gainStep 0 = _
    rw [foldlM_pairs_eq gainStep (fun a ea eb => a + max 0 (eb - ea))
      (fun acc pa pb ea eb hea heb => by
        simp [gainStep, elevation, hea, heb]) s.points es h 0]
    rfl
  have hloss : elevation_loss s = some (lossOf es) := by
    rw [elevation_loss]
    show (s.points.zip s.points.tail).foldlM lossStep 0 = _
    rw [foldlM_pairs_eq lossStep (fun a ea eb => a + max 0 (-eb + ea))
      (fun acc pa pb ea eb hea heb => by
        simp [lossStep, elevation, hea, heb]) s.points es h 0]
    rfl
  refine ⟨gainOf es, lossOf es, hgain, hloss, ?_⟩
  have := gain_loss_fold_sub es 0 0
  simpa [gainOf, lossOf] using this

/-- Witness for C5 at the concrete elevation profile `[3, 7, 2]`:
gain `4` minus loss `5` equals `2 - 3`. -/
theorem C5_gain_loss_telescope_witness :
    ∃ g l, elevation_gain ⟨[elevPt 3, elevPt 7, elevPt 2]⟩ = some g ∧
      elevation_loss ⟨[elevPt 3, elevPt 7, elevPt 2]⟩ = some l ∧
      g - l = ([3, 7, 2] : List ℚ).getLastD 0 - ([3, 7, 2] : List ℚ).headD 0 :=
  C5_gain_loss_telescope ⟨[elevPt 3, elevPt 7, elevPt 2]⟩ [3, 7, 2]
    (by decide) (by decide)

/-- Claim C10: `split_segment_at_point` does not mutate the original
segment.  In the heap model the store entry holding `segment.points` is
unchanged by the call and the two returned halves live at fresh addresses
(they are freshly built lists). -/
theorem C10_split_segment_no_mutation (h : Heap) (s : SegRef) (p : Point)
    (hwf : s.ptsRef < h.next) (hp : p ∈ h.mem s.ptsRef) :
    ∃ h2 A B, split_segment_at_point_heap h s p = some (h2, A, B) ∧
      h2.mem s.ptsRef = h.mem s.ptsRef ∧
      A.ptsRef ≠ s.ptsRef ∧ B.ptsRef ≠ s.ptsRef := by
  have h1 : s.ptsRef ≠ h.next + 1 := by omega
  have h2 : s.ptsRef ≠ h.next := by omega
  refine ⟨⟨fun a =>
      if a = h.next + 1 then (h.mem s.ptsRef).drop ((h.mem s.ptsRef).indexOf p)
      else if a = h.next then (h.mem s.ptsRef).take ((h.mem s.ptsRef).indexOf p + 1)
      else h.mem a, h.next + 2⟩, ⟨h.next⟩, ⟨h.next + 1⟩, ?_, ?_, ?_, ?_⟩
  · rw [split_segment_at_point_heap, if_pos hp]
    rfl
  · show (if s.ptsRef = h.next + 1 then _ else if s.ptsRef = h.next then _
      else h.mem s.ptsRef) = h.mem s.ptsRef
    rw [if_neg h1, if_neg h2]
  · show h.next ≠ s.ptsRef
    omega
  · show h.next + 1 ≠ s.ptsRef
    omega

/-- Witness for C10 at a concrete one-list heap. -/
theorem C10_split_segment_no_mutation_witness :
    ∃ h2 A B,
      split_segment_at_point_heap sampleHeap ⟨0⟩ (mkPt 2 0) = some (h2, A, B) ∧
      h2.mem 0 = sampleHeap.mem 0 ∧ A.ptsRef ≠ 0 ∧ B.ptsRef ≠ 0 :=
  C10_split_segment_no_mutation sampleHeap ⟨0⟩ (mkPt 2 0)
    (by decide) (by decide)

/-! ## Geometry lemmas -/

theorem arctan_pos_of_pos {t : ℝ} (h : 0 < t) : 0 < Real.arctan t := by
  have := Real.arctan_strictMono h
  simpa [Real.arctan_zero] using this

theorem atan2_zero_one : atan2 0 1 = 0 := by
  rw [atan2, if_pos one_pos, zero_div, Real.arctan_zero]

theorem atan2_pos {y x : ℝ} (hy : 0 < y) (hx : 0 ≤ x) : 0 < atan2 y x := by
  rcases hx.eq_or_lt with hx0 | hxpos
  · have h2 : atan2 y x = Real.pi / 2 := by
      simp [atan2, ← hx0, lt_irrefl, hy]
    rw [h2]
    positivity
  · rw [atan2, if_pos hxpos]
    exact arctan_pos_of_pos (div_pos hy hxpos)

theorem radians_lt_pi_div_two {x : ℝ} (h : x < 90) : radians x < Real.pi / 2 := by
  rw [radians]
  have hpi := Real.pi_pos
  nlinarith

theorem neg_pi_div_two_lt_radians {x : ℝ} (h : -90 < x) :
    -(Real.pi / 2) < radians x := by
  rw [radians]
  have hpi := Real.pi_pos
  nlinarith

theorem haversine_symm (p q : Point) :
    haversine_distance p q = haversine_distance q p := by
  simp only [haversine_distance]
  have hlat : radians (p.latitude : ℝ) - radians (q.latitude : ℝ)
      = -(radians (q.latitude : ℝ) - radians (p.latitude : ℝ)) := by ring
  have hlon : radians (p.longitude : ℝ) - radians (q.longitude : ℝ)
      = -(radians (q.longitude : ℝ) - radians (p.longitude : ℝ)) := by ring
  rw [hlat, hlon, neg_div, Real.sin_neg, neg_div, Real.sin_neg]
  ring_nf

theorem haversine_zero_of_coords (p q : Point) (hlat : p.latitude = q.latitude)
    (hlon : p.longitude = q.longitude) : haversine_distance p q = 0 := by
  simp only [haversine_distance, hlat, hlon, sub_self, zero_div, Real.sin_zero,
    ne_eq, OfNat.ofNat_ne_zero, not_false_eq_true, zero_pow, mul_zero, add_zero,
    zero_add, Real.sqrt_zero, sub_zero, Real.sqrt_one, atan2_zero_one]

/-- Counterexample to claim C7: at the north pole (latitude `90`, inside
the claim's stated latitude range) two points with different longitudes
are at haversine distance exactly `0`, because `cos(π/2) = 0` annihilates
the longitude term; so `distance = 0` does not imply identical
longitude. -/
theorem C7_counterexample :
    haversine_distance (mkPt 90 0) (mkPt 90 90) = 0 ∧
      (mkPt 90 0).longitude ≠ (mkPt 90 90).longitude := by
  constructor
  · have h90 : radians (((90 : ℚ) : ℝ)) = Real.pi / 2 := by
      rw [radians]
      push_cast
      ring
    simp only [haversine_distance, mkPt, h90, sub_self, zero_div, Real.sin_zero,
      ne_eq, OfNat.ofNat_ne_zero, not_false_eq_true, zero_pow, Real.cos_pi_div_two,
      zero_mul, mul_zero, add_zero, zero_add, Real.sqrt_zero, sub_zero,
      Real.sqrt_one, atan2_zero_one]
  · decide

set_option maxHeartbeats 1000000 in
/-- Claim C7, amended: the haversine distance is symmetric, and for points
whose latitudes lie strictly inside `(-90, 90)` degrees and whose
longitudes differ by less than `360` degrees, the distance is zero iff the
two points have identical latitude and identical longitude (elevation and
timestamp are ignored).  The strict latitude bound is forced by the polar
counterexample, the longitude bound by the `360`-degree wrap-around of the
angle. -/
theorem C7_haversine_symm_zero_iff (a b : Point)
    (ha1 : -90 < a.latitude) (ha2 : a.latitude < 90)
    (hb1 : -90 < b.latitude) (hb2 : b.latitude < 90)
    (hlon : |a.longitude - b.longitude| < 360) :
    haversine_distance a b = haversine_distance b a ∧
      (haversine_distance a b = 0 ↔
        a.latitude = b.latitude ∧ a.longitude = b.longitude) := by
  refine ⟨haversine_symm a b, ?_, fun h => haversine_zero_of_coords a b h.1 h.2⟩
  intro hzero
  simp only [haversine_distance] at hzero
  have hpi := Real.pi_pos
  set la : ℝ := (a.latitude : ℝ) with hla
  set lb : ℝ := (b.latitude : ℝ) with hlb
  set oa : ℝ := (a.longitude : ℝ) with hoa
  set ob : ℝ := (b.longitude : ℝ) with hob
  have hla1 : -90 < la := by rw [hla]; exact_mod_cast ha1
  have hla2 : la < 90 := by rw [hla]; exact_mod_cast ha2
  have hlb1 : -90 < lb := by rw [hlb]; exact_mod_cast hb1
  have hlb2 : lb < 90 := by rw [hlb]; exact_mod_cast hb2
  have hlon2 : |oa - ob| < 360 := by
    rw [hoa, hob]
    exact_mod_cast hlon
  have hcosa : 0 < Real.cos (radians la) :=
    Real.cos_pos_of_mem_Ioo ⟨neg_pi_div_two_lt_radians hla1, radians_lt_pi_div_two hla2⟩
  have hcosb : 0 < Real.cos (radians lb) :=
    Real.cos_pos_of_mem_Ioo ⟨neg_pi_div_two_lt_radians hlb1, radians_lt_pi_div_two hlb2⟩
  set aval : ℝ := Real.sin ((radians lb - radians la) / 2) ^ 2 +
    Real.cos (radians la) * Real.cos (radians lb) *
      Real.sin ((radians ob - radians oa) / 2) ^ 2 with haval
  have hnn1 : 0 ≤ Real.sin ((radians lb - radians la) / 2) ^ 2 := sq_nonneg _
  have hnn2 : 0 ≤ Real.cos (radians la) * Real.cos (radians lb) *
      Real.sin ((radians ob - radians oa) / 2) ^ 2 :=
    mul_nonneg (mul_nonneg hcosa.le hcosb.le) (sq_nonneg _)
  have hanonneg : 0 ≤ aval := by rw [haval]; positivity
  have haval0 : aval = 0 := by
    by_contra hne
    have hapos : 0 < aval := lt_of_le_of_ne hanonneg (Ne.symm hne)
    have h1 : 0 < atan2 (Real.sqrt aval) (Real.sqrt (1 - aval)) :=
      atan2_pos (Real.sqrt_pos.2 hapos) (Real.sqrt_nonneg _)
    have hR : (0 : ℝ) < earth_radius_m := by rw [earth_radius_m]; norm_num
    nlinarith [hzero]
  have hterm1 : Real.sin ((radians lb - radians la) / 2) ^ 2 = 0 := by
    rw [haval] at haval0
    linarith
  have hterm2 : Real.cos (radians la) * Real.cos (radians lb) *
      Real.sin ((radians ob - radians oa) / 2) ^ 2 = 0 := by
    rw [haval] at haval0
    linarith
  have hsin1 : Real.sin ((radians lb - radians la) / 2) = 0 := sq_eq_zero_iff.1 hterm1
  have hsin2 : Real.sin ((radians ob - radians oa) / 2) = 0 := by
    have := mul_eq_zero.1 hterm2
    rcases this with h | h
    · have hpos : 0 < Real.cos (radians la) * Real.cos (radians lb) :=
        mul_pos hcosa hcosb
      exact absurd h hpos.ne'
    · exact sq_eq_zero_iff.1 h
  have hlat_eq : a.latitude = b.latitude := by
    have hb1 : -Real.pi < (radians lb - radians la) / 2 := by
      have x1 := neg_pi_div_two_lt_radians hla1
      have x2 := radians_lt_pi_div_two hla2
      have x3 := neg_pi_div_two_lt_radians hlb1
      have x4 := radians_lt_pi_div_two hlb2
      linarith
    have hb2 : (radians lb - radians la) / 2 < Real.pi := by
      have x1 := neg_pi_div_two_lt_radians hla1
      have x2 := radians_lt_pi_div_two hla2
      have x3 := neg_pi_div_two_lt_radians hlb1
      have x4 := radians_lt_pi_div_two hlb2
      linarith
    have hz := (Real.sin_eq_zero_iff_of_lt_of_lt hb1 hb2).1 hsin1
    have hrad : radians lb = radians la := by
      have : radians lb - radians la = 0 := by linarith
      linarith
    have hne : (Real.pi / 180) ≠ 0 := by positivity
    have hcast : lb = la := by
      have e1 : radians lb = lb * (Real.pi / 180) := by rw [radians]; ring
      have e2 : radians la = la * (Real.pi / 180) := by rw [radians]; ring
      rw [e1, e2] at hrad
      exact mul_right_cancel₀ hne hrad
    exact (Rat.cast_injective (hlb ▸ hla ▸ hcast)).symm
  have hlon_eq : a.longitude = b.longitude := by
    have hd : radians ob - radians oa = (ob - oa) * Real.pi / 180 := by
      rw [radians, radians]
      ring
    have habs : |ob - oa| < 360 := by
      rw [abs_sub_comm]
      exact hlon2
    have hub : ob - oa < 360 := (abs_lt.1 habs).2
    have hlbnd : -360 < ob - oa := (abs_lt.1 habs).1
    have hb1 : -Real.pi < (radians ob - radians oa) / 2 := by
      rw [hd]
      nlinarith [mul_pos (show (0 : ℝ) < ob - oa + 360 by linarith) hpi]
    have hb2 : (radians ob - radians oa) / 2 < Real.pi := by
      rw [hd]
      nlinarith [mul_pos (show (0 : ℝ) < 360 - (ob - oa) by linarith) hpi]
    have hz := (Real.sin_eq_zero_iff_of_lt_of_lt hb1 hb2).1 hsin2
    have hrad : radians ob = radians oa := by
      have : radians ob - radians oa = 0 := by linarith
      linarith
    have hne : (Real.pi / 180) ≠ 0 := by positivity
    have hcast : ob = oa := by
      have e1 : radians ob = ob * (Real.pi / 180) := by rw [radians]; ring
      have e2 : radians oa = oa * (Real.pi / 180) := by rw [radians]; ring
      rw [e1, e2] at hrad
      exact mul_right_cancel₀ hne hrad
    exact (Rat.cast_injective (hob ▸ hoa ▸ hcast)).symm
  exact ⟨hlat_eq, hlon_eq⟩

/-- Witness for the amended C7 at two concrete in-range points. -/
theorem C7_haversine_symm_zero_iff_witness :
    haversine_distance (mkPt 10 20) (mkPt 30 40) =
      haversine_distance (mkPt 30 40) (mkPt 10 20) ∧
      (haversine_distance (mkPt 10 20) (mkPt 30 40) = 0 ↔
        (mkPt 10 20).latitude = (mkPt 30 40).latitude ∧
          (mkPt 10 20).longitude = (mkPt 30 40).longitude) :=
  C7_haversine_symm_zero_iff (mkPt 10 20) (mkPt 30 40)
    (by norm_num [mkPt]) (by norm_num [mkPt]) (by norm_num [mkPt])
    (by norm_num [mkPt]) (by norm_num [mkPt])

theorem nearest_fold_inv (q : Point) :
    ∀ (l : List Point) (m : ℝ) (np : Point), m = haversine_distance q np →
      ∃ m2 np2, l.foldl (nearestStep q) (some (m, np)) = some (m2, np2) ∧
        m2 = haversine_distance q np2 ∧ (np2 = np ∨ np2 ∈ l) ∧ m2 ≤ m ∧
        ∀ r ∈ l, m2 ≤ haversine_distance q r := by
  intro l
  induction l with
  | nil =>
    intro m np hm
    exact ⟨m, np, rfl, hm, Or.inl rfl, le_refl m, by simp⟩
  | cons x xs ih =>
    intro m np hm
    rw [List.foldl_cons]
    by_cases hlt : haversine_distance q x < m
    · have hstep : nearestStep q (some (m, np)) x =
          some (haversine_distance q x, x) := by
        simp [nearestStep, hlt]
      rw [hstep]
      obtain ⟨m2, np2, heq, hm2, hmem, hle, hall⟩ := ih _ x rfl
      refine ⟨m2, np2, heq, hm2, ?_, by linarith, ?_⟩
      · rcases hmem with rfl | hmm
        · exact Or.inr (List.mem_cons_self _ _)
        · exact Or.inr (List.mem_cons_of_mem _ hmm)
      · intro r hr
        rcases List.mem_cons.1 hr with rfl | hr2
        · exact hle
        · exact hall r hr2
    · have hstep : nearestStep q (some (m, np)) x = some (m, np) := by
        simp [nearestStep, hlt]
      rw [hstep]
      obtain ⟨m2, np2, heq, hm2, hmem, hle, hall⟩ := ih m np hm
      refine ⟨m2, np2, heq, hm2, ?_, hle, ?_⟩
      · rcases hmem with rfl | hmm
        · exact Or.inl rfl
        · exact Or.inr (List.mem_cons_of_mem _ hmm)
      · intro r hr
        rcases List.mem_cons.1 hr with rfl | hr2
        · push_neg at hlt
          linarith
        · exact hall r hr2

/-- Claim C9: `find_nearest_track_point` returns, when the tracks contain
at least one track point, a point that is a member of some segment of some
track whose distance to the query point is minimal over all track points;
when the tracks contain no points at all it fails (the
`assert nearest_point is not None`, the `NoPointsAvailable` role). -/
theorem C9_find_nearest_spec (q : Point) (tracks : List Track) :
    (allTrackPoints tracks = [] → find_nearest_track_point q tracks = none) ∧
      (allTrackPoints tracks ≠ [] →
        ∃ p, find_nearest_track_point q tracks = some p ∧
          p ∈ allTrackPoints tracks ∧
          ∀ r ∈ allTrackPoints tracks,
            haversine_distance q p ≤ haversine_distance q r) := by
  constructor
  · intro h
    rw [find_nearest_track_point, h]
    rfl
  · intro h
    rcases hl : allTrackPoints tracks with _ | ⟨x, xs⟩
    · exact absurd hl h
    · rw [find_nearest_track_point, hl, List.foldl_cons]
      have hstep : nearestStep q none x = some (haversine_distance q x, x) := rfl
      rw [hstep]
      obtain ⟨m2, np2, heq, hm2, hmem, hle, hall⟩ := nearest_fold_inv q xs _ x rfl
      refine ⟨np2, ?_, ?_, ?_⟩
      · rw [heq]
        rfl
      · rcases hmem with rfl | hmm
        · exact List.mem_cons_self _ _
        · exact List.mem_cons_of_mem _ hmm
      · intro r hr
        rcases List.mem_cons.1 hr with rfl | hr2
        · rw [← hm2]
          exact hle
        · rw [← hm2]
          exact hall r hr2

/-- Witness for C9: a one-point track set; the returned point is that
point and its distance is minimal. -/
theorem C9_find_nearest_spec_witness :
    ∃ p, find_nearest_track_point (mkPt 0 0) [⟨[⟨[mkPt 1 0]⟩]⟩] = some p ∧
      p ∈ allTrackPoints [⟨[⟨[mkPt 1 0]⟩]⟩] ∧
      ∀ r ∈ allTrackPoints [⟨[⟨[mkPt 1 0]⟩]⟩],
        haversine_distance (mkPt 0 0) p ≤ haversine_distance (mkPt 0 0) r :=
  (C9_find_nearest_spec (mkPt 0 0) [⟨[⟨[mkPt 1 0]⟩]⟩]).2 (by decide)

/-! ## Sequencer lemmas (`pg.py`) -/

theorem pg_haversine_self (c : ℚ × ℚ) : pg_haversine c c = 0 := by
  simp only [pg_haversine, sub_self, radians, zero_mul, zero_div, Real.sin_zero,
    ne_eq, OfNat.ofNat_ne_zero, not_false_eq_true, zero_pow, mul_zero, add_zero,
    zero_add, Real.sqrt_zero, sub_zero, Real.sqrt_one, atan2_zero_one]

theorem pg_haversine_equator_pos (x y : ℚ) (hne : x ≠ y)
    (habs : |(x : ℝ) - (y : ℝ)| < 360) :
    0 < pg_haversine ((0 : ℚ), x) ((0 : ℚ), y) := by
  have hpi := Real.pi_pos
  have key : pg_haversine ((0 : ℚ), x) ((0 : ℚ), y) = 2 * (6372800 / 1000) *
      atan2 (Real.sqrt (Real.sin ((((y : ℝ) - (x : ℝ)) * Real.pi / 180) / 2) ^ 2))
        (Real.sqrt (1 -
          Real.sin ((((y : ℝ) - (x : ℝ)) * Real.pi / 180) / 2) ^ 2)) := by
    simp only [pg_haversine, radians]
    norm_num
  rw [key]
  have hb1 : -Real.pi < (((y : ℝ) - (x : ℝ)) * Real.pi / 180) / 2 := by
    have h1 : -360 < (y : ℝ) - (x : ℝ) := by
      have := (abs_lt.1 habs).2
      linarith
    nlinarith [mul_pos (show (0 : ℝ) < (y : ℝ) - (x : ℝ) + 360 by linarith) hpi]
  have hb2 : (((y : ℝ) - (x : ℝ)) * Real.pi / 180) / 2 < Real.pi := by
    have h1 : (y : ℝ) - (x : ℝ) < 360 := by
      have := (abs_lt.1 habs).1
      linarith
    nlinarith [mul_pos (show (0 : ℝ) < 360 - ((y : ℝ) - (x : ℝ)) by linarith) hpi]
  have hsin : Real.sin ((((y : ℝ) - (x : ℝ)) * Real.pi / 180) / 2) ≠ 0 := by
    intro h0
    have := (Real.sin_eq_zero_iff_of_lt_of_lt hb1 hb2).1 h0
    have hyx : (y : ℝ) - (x : ℝ) = 0 := by
      have hstep : ((y : ℝ) - (x : ℝ)) * Real.pi = 0 := by linarith
      rcases mul_eq_zero.1 hstep with h | h
      · exact h
      · exact absurd h hpi.ne'
    have : (y : ℝ) = (x : ℝ) := by linarith
    exact hne (Rat.cast_injective this).symm
  have hsq : 0 < Real.sin ((((y : ℝ) - (x : ℝ)) * Real.pi / 180) / 2) ^ 2 :=
    lt_of_le_of_ne (sq_nonneg _) (Ne.symm (pow_ne_zero 2 hsin))
  have hat : 0 < atan2
      (Real.sqrt (Real.sin ((((y : ℝ) - (x : ℝ)) * Real.pi / 180) / 2) ^ 2))
      (Real.sqrt (1 - Real.sin ((((y : ℝ) - (x : ℝ)) * Real.pi / 180) / 2) ^ 2)) :=
    atan2_pos (Real.sqrt_pos.2 hsq) (Real.sqrt_nonneg _)
  nlinarith [hat]

theorem argminIdx_three_one (f : Nat → ℝ) (h1 : f 1 < f 0) (h2 : ¬ f 2 < f 1) :
    argminIdx f 3 = 1 := by
  rw [argminIdx, show List.range 3 = [0, 1, 2] from rfl,
    List.foldl_cons, List.foldl_cons, List.foldl_cons, List.foldl_nil]
  simp only [lt_self_iff_false, if_false, if_pos h1, if_neg h2]

theorem argminIdx_three_zero (f : Nat → ℝ) (h1 : ¬ f 1 < f 0) (h2 : ¬ f 2 < f 0) :
    argminIdx f 3 = 0 := by
  rw [argminIdx, show List.range 3 = [0, 1, 2] from rfl,
    List.foldl_cons, List.foldl_cons, List.foldl_cons, List.foldl_nil]
  simp only [lt_self_iff_false, if_false, if_neg h1, if_neg h2]

theorem argmaxIdx_three_zero (f : Nat → ℝ) (h1 : ¬ f 0 < f 1) (h2 : ¬ f 0 < f 2) :
    argmaxIdx f 3 = 0 := by
  rw [argmaxIdx, show List.range 3 = [0, 1, 2] from rfl,
    List.foldl_cons, List.foldl_cons, List.foldl_cons, List.foldl_nil]
  simp only [lt_self_iff_false, if_false, if_neg h1, if_neg h2]

theorem segClosest_cex_zero : segClosest cexSegs 0 = 1 := by
  have z11 : pg_haversine ((0 : ℚ), (1 : ℚ)) ((0 : ℚ), (1 : ℚ)) = 0 :=
    pg_haversine_self _
  have p12 : 0 < pg_haversine ((0 : ℚ), (1 : ℚ)) ((0 : ℚ), (2 : ℚ)) :=
    pg_haversine_equator_pos 1 2 (by norm_num) (by norm_num)
  refine argminIdx_three_one _ ?_ ?_
  · show pg_haversine ((0 : ℚ), (1 : ℚ)) ((0 : ℚ), (1 : ℚ)) <
      pg_haversine ((0 : ℚ), (1 : ℚ)) ((0 : ℚ), (2 : ℚ))
    rw [z11]
    exact p12
  · show ¬ pg_haversine ((0 : ℚ), (1 : ℚ)) ((0 : ℚ), (1 : ℚ)) <
      pg_haversine ((0 : ℚ), (1 : ℚ)) ((0 : ℚ), (1 : ℚ))
    exact lt_irrefl _

theorem segClosest_cex_one : segClosest cexSegs 1 = 0 := by
  have z22 : pg_haversine ((0 : ℚ), (2 : ℚ)) ((0 : ℚ), (2 : ℚ)) = 0 :=
    pg_haversine_self _
  have p21 : 0 < pg_haversine ((0 : ℚ), (2 : ℚ)) ((0 : ℚ), (1 : ℚ)) :=
    pg_haversine_equator_pos 2 1 (by norm_num) (by norm_num)
  refine argminIdx_three_zero _ ?_ ?_
  · show ¬ pg_haversine ((0 : ℚ), (2 : ℚ)) ((0 : ℚ), (1 : ℚ)) <
      pg_haversine ((0 : ℚ), (2 : ℚ)) ((0 : ℚ), (2 : ℚ))
    rw [z22]
    exact not_lt.2 p21.le
  · show ¬ pg_haversine ((0 : ℚ), (2 : ℚ)) ((0 : ℚ), (1 : ℚ)) <
      pg_haversine ((0 : ℚ), (2 : ℚ)) ((0 : ℚ), (2 : ℚ))
    rw [z22]
    exact not_lt.2 p21.le

theorem segClosest_cex_two : segClosest cexSegs 2 = 1 := by
  have z11 : pg_haversine ((0 : ℚ), (1 : ℚ)) ((0 : ℚ), (1 : ℚ)) = 0 :=
    pg_haversine_self _
  have p12 : 0 < pg_haversine ((0 : ℚ), (1 : ℚ)) ((0 : ℚ), (2 : ℚ)) :=
    pg_haversine_equator_pos 1 2 (by norm_num) (by norm_num)
  refine argminIdx_three_one _ ?_ ?_
  · show pg_haversine ((0 : ℚ), (1 : ℚ)) ((0 : ℚ), (1 : ℚ)) <
      pg_haversine ((0 : ℚ), (1 : ℚ)) ((0 : ℚ), (2 : ℚ))
    rw [z11]
    exact p12
  · show ¬ pg_haversine ((0 : ℚ), (1 : ℚ)) ((0 : ℚ), (1 : ℚ)) <
      pg_haversine ((0 : ℚ), (1 : ℚ)) ((0 : ℚ), (1 : ℚ))
    exact lt_irrefl _

theorem closestMap_cex : closestMap cexSegs = [(0, 1), (1, 0), (2, 1)] := by
  rw [closestMap, show cexSegs.length = 3 from rfl,
    show List.range 3 = [0, 1, 2] from rfl,
    List.map_cons, List.map_cons, List.map_cons, List.map_nil,
    segClosest_cex_zero, segClosest_cex_one, segClosest_cex_two]

theorem incomingDistance_cex_zero : incomingDistance cexSegs 0 = 0 := by
  have z22 : pg_haversine ((0 : ℚ), (2 : ℚ)) ((0 : ℚ), (2 : ℚ)) = 0 :=
    pg_haversine_self _
  have p21 : 0 < pg_haversine ((0 : ℚ), (2 : ℚ)) ((0 : ℚ), (1 : ℚ)) :=
    pg_haversine_equator_pos 2 1 (by norm_num) (by norm_num)
  rw [incomingDistance, show cexSegs.length = 3 from rfl,
    show List.range 3 = [0, 1, 2] from rfl,
    List.map_cons, List.map_cons, List.map_cons, List.map_nil]
  show pyMinList [pg_haversine ((0 : ℚ), (2 : ℚ)) ((0 : ℚ), (1 : ℚ)),
    pg_haversine ((0 : ℚ), (2 : ℚ)) ((0 : ℚ), (2 : ℚ)),
    pg_haversine ((0 : ℚ), (2 : ℚ)) ((0 : ℚ), (1 : ℚ))] = 0
  rw [pyMinList, List.foldl_cons, List.foldl_cons, List.foldl_nil, z22]
  rw [min_eq_right p21.le, min_eq_left p21.le]

theorem incomingDistance_cex_one : incomingDistance cexSegs 1 = 0 := by
  have z11 : pg_haversine ((0 : ℚ), (1 : ℚ)) ((0 : ℚ), (1 : ℚ)) = 0 :=
    pg_haversine_self _
  have p12 : 0 < pg_haversine ((0 : ℚ), (1 : ℚ)) ((0 : ℚ), (2 : ℚ)) :=
    pg_haversine_equator_pos 1 2 (by norm_num) (by norm_num)
  rw [incomingDistance, show cexSegs.length = 3 from rfl,
    show List.range 3 = [0, 1, 2] from rfl,
    List.map_cons, List.map_cons, List.map_cons, List.map_nil]
  show pyMinList [pg_haversine ((0 : ℚ), (1 : ℚ)) ((0 : ℚ), (1 : ℚ)),
    pg_haversine ((0 : ℚ), (1 : ℚ)) ((0 : ℚ), (2 : ℚ)),
    pg_haversine ((0 : ℚ), (1 : ℚ)) ((0 : ℚ), (1 : ℚ))] = 0
  rw [pyMinList, List.foldl_cons, List.foldl_cons, List.foldl_nil, z11]
  rw [min_eq_left p12.le, min_eq_left (le_refl 0)]

theorem incomingDistance_cex_two : incomingDistance cexSegs 2 = 0 := by
  have z11 : pg_haversine ((0 : ℚ), (1 : ℚ)) ((0 : ℚ), (1 : ℚ)) = 0 :=
    pg_haversine_self _
  have p12 : 0 < pg_haversine ((0 : ℚ), (1 : ℚ)) ((0 : ℚ), (2 : ℚ)) :=
    pg_haversine_equator_pos 1 2 (by norm_num) (by norm_num)
  rw [incomingDistance, show cexSegs.length = 3 from rfl,
    show List.range 3 = [0, 1, 2] from rfl,
    List.map_cons, List.map_cons, List.map_cons, List.map_nil]
  show pyMinList [pg_haversine ((0 : ℚ), (1 : ℚ)) ((0 : ℚ), (1 : ℚ)),
    pg_haversine ((0 : ℚ), (1 : ℚ)) ((0 : ℚ), (2 : ℚ)),
    pg_haversine ((0 : ℚ), (1 : ℚ)) ((0 : ℚ), (1 : ℚ))] = 0
  rw [pyMinList, List.foldl_cons, List.foldl_cons, List.foldl_nil, z11]
  rw [min_eq_left p12.le, min_eq_left (le_refl 0)]

theorem firstIdx_cex : firstIdx cexSegs = 0 := by
  rw [firstIdx, show cexSegs.length = 3 from rfl]
  refine argmaxIdx_three_zero _ ?_ ?_
  · rw [incomingDistance_cex_zero, incomingDistance_cex_one]
    exact lt_irrefl 0
  · rw [incomingDistance_cex_zero, incomingDistance_cex_two]
    exact lt_irrefl 0

/-- Claim C2, evaluated at a failing input (status: code bug).  On the
three equator segments `[(0,2) → (0,1)]`, `[(0,1) → (0,2)]` and `[(0,1)]`,
`segmentsort` starts at segment `0`, follows the successor chain
`0 → 1 → 0`, and — since the `closest` map is still non-empty — yields
segment `0` a second time before dying with a `KeyError` on
`closest.pop(0)`.  The yielded stream is `[0, 1, 0]` with the error flag
set: segment `0` is emitted twice, segment `2` never, so the output is not
a permutation of the input and the generator does not terminate
normally. -/
theorem C2_segmentsort_eval : segmentsortRun cexSegs = ([0, 1, 0], true) := by
  rw [segmentsortRun, closestMap_cex, firstIdx_cex]
  decide

end PlanSchedule
